import Mathlib

/-
Verification of the green-thread scheduler in src/main.rs.

The Rust program is shallowly embedded as pure Lean functions over an
explicit scheduler state. Machine integers (u64, usize) are modelled as
Nat; where u64 truncation matters the statements take values mod 2 ^ 64.
Raw pointers into a stack buffer are modelled by the byte offset inside
the owning buffer plus an abstract numeric base address supplied as a
parameter. Rust indexing such as threads[pos] panics when out of bounds;
every theorem below that touches indexing carries the in-bounds
hypothesis under which the embedding agrees with the source.
-/

set_option maxHeartbeats 1000000

namespace Green

/-- Lifecycle state of an execution unit, from the enum State in main.rs. -/
inductive State where
  | Available
  | Running
  | Ready
deriving DecidableEq, Repr

/-- Saved register snapshot, from struct ThreadContext in main.rs.
All fields are u64 except win_nt_tib, a u128; both are modelled as Nat. -/
structure ThreadContext where
  rsp : Nat
  r15 : Nat
  r14 : Nat
  r13 : Nat
  r12 : Nat
  rbx : Nat
  rbp : Nat
  win_nt_tib : Nat
deriving DecidableEq, Repr

/-- The all-zero context, from ThreadContext::default(). -/
def ThreadContext.zero : ThreadContext := ⟨0, 0, 0, 0, 0, 0, 0, 0⟩

/-- One execution unit, from struct Thread in main.rs. The stack is the
owned byte buffer (one Nat per byte). -/
structure Thread where
  id : Nat
  stack : List Nat
  ctx : ThreadContext
  state : State
deriving DecidableEq, Repr

/-- The scheduler, from struct Runtime in main.rs. -/
structure Runtime where
  threads : List Thread
  current : Nat
deriving DecidableEq, Repr

/-- const DEFAULT_STACK_SIZE in main.rs. -/
def DEFAULT_STACK_SIZE : Nat := 1024 * 1024 * 2

/-- const MAX_THREADS in main.rs. -/
def MAX_THREADS : Nat := 4

/-- Thread::new in main.rs: an Available thread with a zeroed
DEFAULT_STACK_SIZE byte stack and a default context. -/
def Thread.new (id : Nat) : Thread :=
  { id := id
    stack := List.replicate DEFAULT_STACK_SIZE 0
    ctx := ThreadContext.zero
    state := State.Available }

/-- Runtime::new in main.rs: a Running base thread with id 0 followed by
threads 1 .. MAX_THREADS - 1 created by Thread::new; current starts at 0. -/
def Runtime.new : Runtime :=
  { threads :=
      { id := 0
        stack := List.replicate DEFAULT_STACK_SIZE 0
        ctx := ThreadContext.zero
        state := State.Running } :: (List.range' 1 (MAX_THREADS - 1)).map Thread.new
    current := 0 }

/-- The lifecycle state stored at pool index i, none when i is out of
bounds (where the Rust indexing would panic). -/
def stateAt (ts : List Thread) (i : Nat) : Option State :=
  (ts.get? i).map Thread.state

/-- Apply f to the thread at index i, leaving every other slot alone.
This is the embedding of an in-place mutation of threads[i]. -/
def modifyAt (ts : List Thread) (i : Nat) (f : Thread → Thread) : List Thread :=
  match ts, i with
  | [], _ => []
  | t :: rest, 0 => f t :: rest
  | t :: rest, n + 1 => t :: modifyAt rest n f

/-- The assignment threads[i].state = s. -/
def setState (ts : List Thread) (i : Nat) (s : State) : List Thread :=
  modifyAt ts i (fun t => { t with state := s })

/-- The increment-and-wrap of the scan loop in Runtime::t_yield:
pos += 1, then pos = 0 when pos reached the pool size. -/
def nextPos (len pos : Nat) : Nat :=
  if pos + 1 = len then 0 else pos + 1

/-- The scan loop of Runtime::t_yield. Starting at pos it looks for the
first slot whose state is Ready, stepping with nextPos, giving up with
none when the step lands back on c (the value of self.current). fuel
bounds the recursion; callers pass the pool size, which is enough for
the loop to reach its exit condition. -/
def scanStep (ts : List Thread) (c : Nat) : Nat → Nat → Option Nat
  | 0, _ => none
  | fuel + 1, pos =>
    if stateAt ts pos = some State.Ready then some pos
    else if nextPos ts.length pos = c then none
    else scanStep ts c fuel (nextPos ts.length pos)

/-- The complete scan of Runtime::t_yield, beginning at self.current. -/
def scanReady (rt : Runtime) : Option Nat :=
  scanStep rt.threads rt.current rt.threads.length rt.current

/-- Runtime::t_yield. saved is the register snapshot that the switch
primitive stores into the outgoing context (the CPU state at the call
site); the incoming context is only read by switch, so it is unchanged in
memory. Returns the scheduler state after the switch together with the
boolean result of t_yield. -/
def t_yield (rt : Runtime) (saved : ThreadContext) : Runtime × Bool :=
  match scanReady rt with
  | none => (rt, false)
  | some pos =>
    let ts1 :=
      if stateAt rt.threads rt.current = some State.Available then rt.threads
      else setState rt.threads rt.current State.Ready
    let ts2 := setState ts1 pos State.Running
    let ts3 := modifyAt ts2 rt.current (fun t => { t with ctx := saved })
    ({ threads := ts3, current := pos }, true)

/-- Runtime::t_return: when current is nonzero, mark the current thread
Available and run t_yield; otherwise do nothing. -/
def t_return (rt : Runtime) (saved : ThreadContext) : Runtime :=
  if rt.current ≠ 0 then
    (t_yield { threads := setState rt.threads rt.current State.Available
               current := rt.current } saved).1
  else rt

/-- Little-endian store of the low n bytes of v into the buffer at the
given byte offset, from the two ptr::write calls of u64 values in
Runtime::spawn. -/
def writeLE : Nat → Nat → Nat → List Nat → List Nat
  | 0, _, _, s => s
  | n + 1, off, v, s => writeLE n (off + 1) (v / 256) (s.set off (v % 256))

/-- Little-endian load of n bytes from the buffer at the given offset. -/
def readLE : Nat → Nat → List Nat → Nat
  | 0, _, _ => 0
  | n + 1, off, s => (s.get? off).getD 0 + 256 * readLE n (off + 1) s

/-- The body of Runtime::spawn once an Available thread is found: write
the guard address g at stack offset size - 8, the entry address f at
size - 16, point rsp at the entry slot (base is the numeric address of
the start of this stack buffer), and mark the thread Ready. -/
def primeThread (t : Thread) (f g base : Nat) : Thread :=
  let size := t.stack.length
  { t with
    stack := writeLE 8 (size - 16) f (writeLE 8 (size - 8) g t.stack)
    ctx := { t.ctx with rsp := base + (size - 16) }
    state := State.Ready }

/-- The iter_mut().find walk of Runtime::spawn: prime the first Available
thread in the list, none when no thread is Available. -/
def spawnAux (f g base : Nat) : List Thread → Option (List Thread)
  | [] => none
  | t :: rest =>
    if t.state = State.Available then some (primeThread t f g base :: rest)
    else (spawnAux f g base rest).map (fun ts => t :: ts)

/-- Runtime::spawn. The error carries the message of the
expect("no available thread.") call, which in the source aborts the
program (a panic): Except.error models that panic, not a value the Rust
caller could receive, since the Rust signature returns unit. -/
def spawn (rt : Runtime) (f g base : Nat) : Except String Runtime :=
  match spawnAux f g base rt.threads with
  | some ts => Except.ok { rt with threads := ts }
  | none => Except.error "no available thread."

/-- n consecutive spawn calls with the same entry and addresses,
stopping at the first panic. -/
def spawnN (f g base : Nat) : Nat → Runtime → Except String Runtime
  | 0, rt => Except.ok rt
  | n + 1, rt =>
    match spawn rt f g base with
    | Except.ok rt2 => spawnN f g base n rt2
    | Except.error e => Except.error e

/-- Number of Available slots in the pool. -/
def countAvail : List Thread → Nat
  | [] => 0
  | t :: rest => (if t.state = State.Available then 1 else 0) + countAvail rest

/-- The pool indices holding Ready threads, in ascending order. -/
def readyIndices (rt : Runtime) : List Nat :=
  (List.range rt.threads.length).filter
    (fun j => decide (stateAt rt.threads j = some State.Ready))

/-- Circular distance from c to j in a pool of the given size: the number
of forward steps (with wraparound) the scan takes from slot c to reach
slot j. -/
def cdist (len c j : Nat) : Nat :=
  if c ≤ j then j - c else j + len - c

/-- The static mut RUNTIME cell, modelled as Option Runtime: none is the
initial null value 0, some rt is an installed scheduler. Runtime::init
stores the new scheduler pointer unconditionally, ignoring any previously
installed one. -/
def installRuntime (_old : Option Runtime) (rt : Runtime) : Option Runtime :=
  some rt

/-- yield_thread in main.rs: dereference the global RUNTIME pointer and
run t_yield on it. When nothing was installed the pointer is null and the
dereference is undefined behavior, modelled as none. -/
def yieldThread (g : Option Runtime) (saved : ThreadContext) : Option (Runtime × Bool) :=
  match g with
  | none => none
  | some rt => some (t_yield rt saved)

/-- One observable scheduler operation: an internal yield (with the
register snapshot the switch would save), a t_return (as run by the guard
trampoline), or a successful spawn. A spawn with a full pool panics and
has no successor state. -/
inductive Step : Runtime → Runtime → Prop where
  | yield : ∀ rt saved, Step rt (t_yield rt saved).1
  | ret : ∀ rt saved, Step rt (t_return rt saved)
  | spawned : ∀ rt f g base rt2, spawn rt f g base = Except.ok rt2 → Step rt rt2

/-- States reachable from Runtime::new by scheduler operations. -/
inductive Reachable : Runtime → Prop where
  | base : Reachable Runtime.new
  | step : ∀ rt rt2, Reachable rt → Step rt rt2 → Reachable rt2

/-- The scheduler invariant: the current index is in bounds, the current
thread is the unique Running one, and the base thread is never Available. -/
def Inv (rt : Runtime) : Prop :=
  rt.current < rt.threads.length ∧
  stateAt rt.threads rt.current = some State.Running ∧
  (∀ j, j ≠ rt.current → stateAt rt.threads j ≠ some State.Running) ∧
  stateAt rt.threads 0 ≠ some State.Available

/-- Index of the first Available slot, mirroring the iter().find walk of
Runtime::spawn at the index level. -/
def firstAvail : List Thread → Option Nat
  | [] => none
  | t :: rest =>
    if t.state = State.Available then some 0
    else (firstAvail rest).map (fun n => n + 1)

/-- Concrete pool for the C1 witness: current 0 is Running, slots 2 and 3
are the only Ready ones. -/
def rtC1 : Runtime :=
  { threads :=
      [{ id := 0, stack := [], ctx := ThreadContext.zero, state := State.Running },
       { id := 1, stack := [], ctx := ThreadContext.zero, state := State.Available },
       { id := 2, stack := [], ctx := ThreadContext.zero, state := State.Ready },
       { id := 3, stack := [], ctx := ThreadContext.zero, state := State.Ready }]
    current := 0 }

/-- Concrete pool for the C2 witness: two Available slots. -/
def rtC2 : Runtime :=
  { threads :=
      [{ id := 0, stack := [], ctx := ThreadContext.zero, state := State.Running },
       { id := 1, stack := [], ctx := ThreadContext.zero, state := State.Available },
       { id := 2, stack := [], ctx := ThreadContext.zero, state := State.Available }]
    current := 0 }

/-- Concrete pool for the C2 counterexample: no Available slot. -/
def rtC2full : Runtime :=
  { threads :=
      [{ id := 0, stack := [], ctx := ThreadContext.zero, state := State.Running },
       { id := 1, stack := [], ctx := ThreadContext.zero, state := State.Ready }]
    current := 0 }

/-- Concrete pool for the C4 counterexample: the current slot itself is
Ready and no other slot is. -/
def rtC4cex : Runtime :=
  { threads := [{ id := 0, stack := [], ctx := ThreadContext.zero, state := State.Ready }]
    current := 0 }

/-- Concrete pool for the C4 witness: no slot is Ready. -/
def rtC4w : Runtime :=
  { threads :=
      [{ id := 0, stack := [], ctx := ThreadContext.zero, state := State.Available },
       { id := 1, stack := [], ctx := ThreadContext.zero, state := State.Available }]
    current := 0 }

/-- The Available thread of the C5 witness pool, with a 32 byte stack and
a context whose callee-saved fields are pairwise distinct. -/
def tC5 : Thread :=
  { id := 1, stack := List.replicate 32 0, ctx := ⟨1, 2, 3, 4, 5, 6, 7, 8⟩
    state := State.Available }

/-- Concrete pool for the C5 witness. -/
def rtC5 : Runtime :=
  { threads :=
      [{ id := 0, stack := List.replicate 4 0, ctx := ThreadContext.zero
         state := State.Running },
       tC5]
    current := 0 }

/-- Concrete pool for the C7 witness, with a nonzero current index. -/
def rtC7 : Runtime :=
  { threads :=
      [{ id := 0, stack := [], ctx := ThreadContext.zero, state := State.Ready },
       { id := 1, stack := [], ctx := ThreadContext.zero, state := State.Running }]
    current := 1 }

/-- First scheduler installed in the C8 counterexample. -/
def rtC8a : Runtime :=
  { threads := [{ id := 0, stack := [], ctx := ThreadContext.zero, state := State.Running }]
    current := 0 }

/-- Second, different scheduler installed in the C8 counterexample. -/
def rtC8b : Runtime :=
  { threads :=
      [{ id := 0, stack := [], ctx := ThreadContext.zero, state := State.Running },
       { id := 1, stack := [], ctx := ThreadContext.zero, state := State.Available }]
    current := 0 }

/-- The Available thread of the C10 witness pool. -/
def tC10 : Thread :=
  { id := 2, stack := List.replicate 24 0, ctx := ⟨10, 20, 30, 40, 50, 60, 70, 80⟩
    state := State.Available }

/-- Concrete pool for the C10 witness. -/
def rtC10 : Runtime :=
  { threads :=
      [{ id := 0, stack := [], ctx := ThreadContext.zero, state := State.Running },
       { id := 1, stack := [], ctx := ThreadContext.zero, state := State.Ready },
       tC10]
    current := 0 }

theorem modifyAt_length (ts : List Thread) (i : Nat) (f : Thread → Thread) :
    (modifyAt ts i f).length = ts.length := by
  induction ts generalizing i with
  | nil => rfl
  | cons t rest ih =>
    cases i with
    | zero => rfl
    | succ n => simp only [modifyAt, List.length_cons, ih]

theorem get?_modifyAt_self (ts : List Thread) (i : Nat) (f : Thread → Thread) :
    (modifyAt ts i f).get? i = (ts.get? i).map f := by
  induction ts generalizing i with
  | nil => cases i <;> rfl
  | cons t rest ih =>
    cases i with
    | zero => rfl
    | succ n => exact ih n

theorem get?_modifyAt_ne (ts : List Thread) (i j : Nat) (f : Thread → Thread)
    (h : j ≠ i) : (modifyAt ts i f).get? j = ts.get? j := by
  induction ts generalizing i j with
  | nil => cases i <;> rfl
  | cons t rest ih =>
    cases i with
    | zero =>
      cases j with
      | zero => exact absurd rfl h
      | succ m => rfl
    | succ n =>
      cases j with
      | zero => rfl
      | succ m => exact ih n m (fun he => h (by rw [he]))

theorem get?_of_lt (ts : List Thread) (i : Nat) (h : i < ts.length) :
    ∃ t, ts.get? i = some t := by
  induction ts generalizing i with
  | nil => simp at h
  | cons t rest ih =>
    cases i with
    | zero => exact ⟨t, rfl⟩
    | succ n => exact ih n (Nat.lt_of_succ_lt_succ h)

theorem stateAt_none_iff (ts : List Thread) (i : Nat) :
    stateAt ts i = none ↔ ts.length ≤ i := by
  unfold stateAt
  rw [Option.map_eq_none']
  exact List.get?_eq_none

theorem stateAt_modifyAt_ne (ts : List Thread) (i j : Nat) (f : Thread → Thread)
    (h : j ≠ i) : stateAt (modifyAt ts i f) j = stateAt ts j := by
  unfold stateAt
  rw [get?_modifyAt_ne ts i j f h]

theorem stateAt_setState_self (ts : List Thread) (i : Nat) (s : State)
    (h : i < ts.length) : stateAt (setState ts i s) i = some s := by
  obtain ⟨t, ht⟩ := get?_of_lt ts i h
  unfold stateAt setState
  rw [get?_modifyAt_self, ht]
  rfl

theorem stateAt_setState_ne (ts : List Thread) (i j : Nat) (s : State)
    (h : j ≠ i) : stateAt (setState ts i s) j = stateAt ts j :=
  stateAt_modifyAt_ne ts i j _ h

theorem stateAt_ctxMod (ts : List Thread) (i : Nat) (c : ThreadContext) (j : Nat) :
    stateAt (modifyAt ts i (fun t => { t with ctx := c })) j = stateAt ts j := by
  by_cases hij : j = i
  · subst hij
    unfold stateAt
    rw [get?_modifyAt_self]
    cases ts.get? j <;> rfl
  · exact stateAt_modifyAt_ne ts i j _ hij

theorem get?_set_self (l : List Nat) (i a : Nat) (h : i < l.length) :
    (l.set i a).get? i = some a := by
  induction l generalizing i with
  | nil => simp at h
  | cons x xs ih =>
    cases i with
    | zero => rfl
    | succ n => exact ih n (Nat.lt_of_succ_lt_succ h)

theorem get?_set_ne (l : List Nat) (i j a : Nat) (h : j ≠ i) :
    (l.set i a).get? j = l.get? j := by
  induction l generalizing i j with
  | nil => rfl
  | cons x xs ih =>
    cases i with
    | zero =>
      cases j with
      | zero => exact absurd rfl h
      | succ m => rfl
    | succ n =>
      cases j with
      | zero => rfl
      | succ m => exact ih n m (fun he => h (by rw [he]))

theorem writeLE_length (n : Nat) :
    ∀ off v s, (writeLE n off v s : List Nat).length = s.length := by
  induction n with
  | zero => intro off v s; rfl
  | succ m ih =>
    intro off v s
    rw [writeLE, ih, List.length_set]

theorem writeLE_get?_lt (n : Nat) :
    ∀ off v s j, j < off → (writeLE n off v s : List Nat).get? j = s.get? j := by
  induction n with
  | zero => intro off v s j _; rfl
  | succ m ih =>
    intro off v s j hj
    rw [writeLE, ih (off + 1) _ _ j (by omega), get?_set_ne _ _ _ _ (by omega)]

theorem writeLE_get?_ge (n : Nat) :
    ∀ off v s j, off + n ≤ j → (writeLE n off v s : List Nat).get? j = s.get? j := by
  induction n with
  | zero => intro off v s j _; rfl
  | succ m ih =>
    intro off v s j hj
    rw [writeLE, ih (off + 1) _ _ j (by omega), get?_set_ne _ _ _ _ (by omega)]

theorem readLE_congr (n : Nat) :
    ∀ off (s1 s2 : List Nat),
      (∀ k, k < n → s1.get? (off + k) = s2.get? (off + k)) →
      readLE n off s1 = readLE n off s2 := by
  induction n with
  | zero => intro off s1 s2 _; rfl
  | succ m ih =>
    intro off s1 s2 h
    rw [readLE, readLE]
    have h0 : s1.get? off = s2.get? off := by
      have := h 0 (by omega)
      simpa using this
    have ht : readLE m (off + 1) s1 = readLE m (off + 1) s2 := by
      refine ih (off + 1) s1 s2 (fun k hk => ?_)
      have := h (k + 1) (by omega)
      have harith : off + (k + 1) = off + 1 + k := by omega
      rwa [harith] at this
    rw [h0, ht]

theorem readLE_writeLE (n : Nat) :
    ∀ off v (s : List Nat), off + n ≤ s.length →
      readLE n off (writeLE n off v s) = v % 256 ^ n := by
  induction n with
  | zero => intro off v s _; simp [readLE, Nat.mod_one]
  | succ m ih =>
    intro off v s hlen
    rw [writeLE, readLE]
    have hhead : (writeLE m (off + 1) (v / 256) (s.set off (v % 256))).get? off
        = some (v % 256) := by
      rw [writeLE_get?_lt m (off + 1) _ _ off (by omega)]
      exact get?_set_self s off (v % 256) (by omega)
    have htail : readLE m (off + 1) (writeLE m (off + 1) (v / 256) (s.set off (v % 256)))
        = (v / 256) % 256 ^ m := by
      refine ih (off + 1) (v / 256) _ ?_
      rw [List.length_set]
      omega
    rw [hhead, htail]
    have hpow : (256 : Nat) ^ (m + 1) = 256 * 256 ^ m := by
      rw [pow_succ]
      exact Nat.mul_comm _ _
    rw [hpow, Nat.mod_mul]
    rfl

theorem cdist_self (len c : Nat) : cdist len c c = 0 := by
  simp [cdist]

theorem cdist_lt (len c j : Nat) (h1 : c < len) (h2 : j < len) :
    cdist len c j < len := by
  unfold cdist
  split <;> omega

theorem cdist_inj (len c j1 j2 : Nat) (h1 : c < len) (h2 : j1 < len) (h3 : j2 < len)
    (h : cdist len c j1 = cdist len c j2) : j1 = j2 := by
  unfold cdist at h
  split at h <;> split at h <;> omega

theorem nextPos_lt (len pos : Nat) (h : pos < len) : nextPos len pos < len := by
  unfold nextPos
  split <;> omega

theorem cdist_nextPos (len c pos : Nat) (hc : c < len) (hp : pos < len)
    (hne : nextPos len pos ≠ c) :
    cdist len c (nextPos len pos) = cdist len c pos + 1 := by
  unfold nextPos at hne ⊢
  unfold cdist
  split_ifs at hne ⊢ <;> omega

theorem cdist_last (len c pos : Nat) (hc : c < len) (hp : pos < len)
    (heq : nextPos len pos = c) : cdist len c pos = len - 1 := by
  unfold nextPos at heq
  unfold cdist
  split_ifs at heq ⊢ <;> omega

theorem scanStep_ready (ts : List Thread) (c : Nat) :
    ∀ fuel pos p, scanStep ts c fuel pos = some p →
      stateAt ts p = some State.Ready := by
  intro fuel
  induction fuel with
  | zero => intro pos p h; exact absurd h (by simp [scanStep])
  | succ n ih =>
    intro pos p h
    rw [scanStep] at h
    split at h
    · cases h
      assumption
    · split at h
      · exact absurd h (by simp)
      · exact ih _ _ h

theorem scanStep_lt (ts : List Thread) (c : Nat) :
    ∀ fuel pos p, pos < ts.length → scanStep ts c fuel pos = some p →
      p < ts.length := by
  intro fuel
  induction fuel with
  | zero => intro pos p _ h; exact absurd h (by simp [scanStep])
  | succ n ih =>
    intro pos p hpos h
    rw [scanStep] at h
    split at h
    · cases h
      exact hpos
    · split at h
      · exact absurd h (by simp)
      · exact ih _ _ (nextPos_lt _ _ hpos) h

theorem scanStep_min (ts : List Thread) (c : Nat) (hc : c < ts.length) :
    ∀ fuel pos p, pos < ts.length → scanStep ts c fuel pos = some p →
    ∀ j, j < ts.length → stateAt ts j = some State.Ready →
    cdist ts.length c pos ≤ cdist ts.length c j →
    cdist ts.length c p ≤ cdist ts.length c j := by
  intro fuel
  induction fuel with
  | zero => intro pos p _ h; exact absurd h (by simp [scanStep])
  | succ n ih =>
    intro pos p hpos h j hj hjr hle
    rw [scanStep] at h
    split at h
    · cases h
      exact hle
    · rename_i hnr
      split at h
      · exact absurd h (by simp)
      · rename_i hnc
        refine ih (nextPos ts.length pos) p (nextPos_lt _ _ hpos) h j hj hjr ?_
        have hne : j ≠ pos := fun he => hnr (he ▸ hjr)
        have hdne : cdist ts.length c j ≠ cdist ts.length c pos :=
          fun he => hne (cdist_inj ts.length c j pos hc hj hpos he)
        rw [cdist_nextPos ts.length c pos hc hpos hnc]
        omega

theorem scanStep_none (ts : List Thread) (c : Nat) (hc : c < ts.length) :
    ∀ fuel pos, pos < ts.length → ts.length ≤ fuel + cdist ts.length c pos →
    scanStep ts c fuel pos = none →
    ∀ j, j < ts.length → cdist ts.length c pos ≤ cdist ts.length c j →
    stateAt ts j ≠ some State.Ready := by
  intro fuel
  induction fuel with
  | zero =>
    intro pos hpos hfuel _
    have := cdist_lt ts.length c pos hc hpos
    omega
  | succ n ih =>
    intro pos hpos hfuel h j hj hle hjr
    rw [scanStep] at h
    split at h
    · exact absurd h (by simp)
    · rename_i hnr
      by_cases hjp : j = pos
      · exact hnr (hjp ▸ hjr)
      · have hdne : cdist ts.length c j ≠ cdist ts.length c pos :=
          fun he => hjp (cdist_inj ts.length c j pos hc hj hpos he)
        split at h
        · rename_i heq
          have hlast := cdist_last ts.length c pos hc hpos heq
          have := cdist_lt ts.length c j hc hj
          omega
        · rename_i hnc
          have hstep := cdist_nextPos ts.length c pos hc hpos hnc
          exact ih (nextPos ts.length pos) (nextPos_lt _ _ hpos)
            (by omega) h j hj (by omega) hjr

theorem scanReady_ready (rt : Runtime) (p : Nat) (h : scanReady rt = some p) :
    stateAt rt.threads p = some State.Ready :=
  scanStep_ready rt.threads rt.current _ _ p h

theorem scanReady_lt (rt : Runtime) (p : Nat) (hc : rt.current < rt.threads.length)
    (h : scanReady rt = some p) : p < rt.threads.length :=
  scanStep_lt rt.threads rt.current _ _ p hc h

theorem scanReady_min (rt : Runtime) (p : Nat) (hc : rt.current < rt.threads.length)
    (h : scanReady rt = some p) :
    ∀ j, j < rt.threads.length → stateAt rt.threads j = some State.Ready →
      cdist rt.threads.length rt.current p ≤ cdist rt.threads.length rt.current j := by
  intro j hj hjr
  refine scanStep_min rt.threads rt.current hc _ _ p hc h j hj hjr ?_
  rw [cdist_self]
  exact Nat.zero_le _

theorem scanReady_none (rt : Runtime) (hc : rt.current < rt.threads.length)
    (h : scanReady rt = none) :
    ∀ j, j < rt.threads.length → stateAt rt.threads j ≠ some State.Ready := by
  intro j hj
  refine scanStep_none rt.threads rt.current hc _ _ hc ?_ h j hj ?_
  · rw [cdist_self]
    omega
  · rw [cdist_self]
    exact Nat.zero_le _

theorem scanReady_isSome_of_ready (rt : Runtime) (j : Nat)
    (hc : rt.current < rt.threads.length) (hj : j < rt.threads.length)
    (hjr : stateAt rt.threads j = some State.Ready) :
    ∃ p, scanReady rt = some p := by
  cases h : scanReady rt with
  | none => exact absurd hjr (scanReady_none rt hc h j hj)
  | some p => exact ⟨p, rfl⟩

theorem t_yield_of_none (rt : Runtime) (saved : ThreadContext)
    (h : scanReady rt = none) : t_yield rt saved = (rt, false) := by
  simp [t_yield, h]

theorem t_yield_of_some (rt : Runtime) (saved : ThreadContext) (pos : Nat)
    (h : scanReady rt = some pos) :
    t_yield rt saved =
      ({ threads :=
           modifyAt
             (setState
               (if stateAt rt.threads rt.current = some State.Available then rt.threads
                else setState rt.threads rt.current State.Ready)
               pos State.Running)
             rt.current (fun t => { t with ctx := saved })
         current := pos }, true) := by
  simp [t_yield, h]

theorem yield_current (rt : Runtime) (saved : ThreadContext) (pos : Nat)
    (h : scanReady rt = some pos) : (t_yield rt saved).1.current = pos := by
  rw [t_yield_of_some rt saved pos h]

theorem yield_true (rt : Runtime) (saved : ThreadContext) (pos : Nat)
    (h : scanReady rt = some pos) : (t_yield rt saved).2 = true := by
  rw [t_yield_of_some rt saved pos h]

theorem yield_length (rt : Runtime) (saved : ThreadContext) (pos : Nat)
    (h : scanReady rt = some pos) :
    (t_yield rt saved).1.threads.length = rt.threads.length := by
  rw [t_yield_of_some rt saved pos h]
  show (modifyAt (setState _ pos _) _ _).length = _
  rw [modifyAt_length]
  unfold setState
  rw [modifyAt_length]
  split
  · rfl
  · exact modifyAt_length _ _ _

theorem yield_state_pos (rt : Runtime) (saved : ThreadContext) (pos : Nat)
    (h : scanReady rt = some pos) (hc : rt.current < rt.threads.length) :
    stateAt (t_yield rt saved).1.threads pos = some State.Running := by
  rw [t_yield_of_some rt saved pos h]
  show stateAt (modifyAt (setState _ pos _) _ _) pos = _
  rw [stateAt_ctxMod]
  refine stateAt_setState_self _ pos _ ?_
  have hp : pos < rt.threads.length := scanReady_lt rt pos hc h
  split
  · exact hp
  · unfold setState
    rw [modifyAt_length]
    exact hp

theorem yield_state_cur_run (rt : Runtime) (saved : ThreadContext) (pos : Nat)
    (h : scanReady rt = some pos) (hc : rt.current < rt.threads.length)
    (hpc : pos ≠ rt.current)
    (hrun : stateAt rt.threads rt.current = some State.Running) :
    stateAt (t_yield rt saved).1.threads rt.current = some State.Ready := by
  rw [t_yield_of_some rt saved pos h]
  show stateAt (modifyAt (setState _ pos _) _ _) rt.current = _
  rw [stateAt_ctxMod]
  rw [stateAt_setState_ne _ pos _ _ (fun he => hpc he.symm)]
  rw [if_neg (by rw [hrun]; simp)]
  exact stateAt_setState_self _ _ _ hc

theorem yield_state_cur_avail (rt : Runtime) (saved : ThreadContext) (pos : Nat)
    (h : scanReady rt = some pos) (hpc : pos ≠ rt.current)
    (havail : stateAt rt.threads rt.current = some State.Available) :
    stateAt (t_yield rt saved).1.threads rt.current = some State.Available := by
  rw [t_yield_of_some rt saved pos h]
  show stateAt (modifyAt (setState _ pos _) _ _) rt.current = _
  rw [stateAt_ctxMod]
  rw [stateAt_setState_ne _ pos _ _ (fun he => hpc he.symm)]
  rw [if_pos havail]
  exact havail

theorem yield_state_other (rt : Runtime) (saved : ThreadContext) (pos j : Nat)
    (h : scanReady rt = some pos) (hjp : j ≠ pos) (hjc : j ≠ rt.current) :
    stateAt (t_yield rt saved).1.threads j = stateAt rt.threads j := by
  rw [t_yield_of_some rt saved pos h]
  show stateAt (modifyAt (setState _ pos _) _ _) j = _
  rw [stateAt_ctxMod]
  rw [stateAt_setState_ne _ pos _ _ hjp]
  split
  · rfl
  · exact stateAt_setState_ne _ _ _ _ hjc

theorem t_return_of_zero (rt : Runtime) (saved : ThreadContext)
    (h : rt.current = 0) : t_return rt saved = rt := by
  simp [t_return, h]

theorem t_return_of_nonzero (rt : Runtime) (saved : ThreadContext)
    (h : rt.current ≠ 0) :
    t_return rt saved =
      (t_yield { threads := setState rt.threads rt.current State.Available
                 current := rt.current } saved).1 := by
  simp [t_return, h]

theorem spawnAux_none_iff (f g base : Nat) (ts : List Thread) :
    spawnAux f g base ts = none ↔ countAvail ts = 0 := by
  induction ts with
  | nil => simp [spawnAux, countAvail]
  | cons t rest ih =>
    by_cases h : t.state = State.Available
    · simp [spawnAux, countAvail, h]
    · simp [spawnAux, countAvail, h, Option.map_eq_none', ih]

theorem spawnAux_some_spec (f g base : Nat) (ts ts2 : List Thread)
    (h : spawnAux f g base ts = some ts2) :
    ∃ i t, ts.get? i = some t ∧ t.state = State.Available ∧
      (∀ j, j < i → stateAt ts j ≠ some State.Available) ∧
      ts2 = modifyAt ts i (fun u => primeThread u f g base) := by
  induction ts generalizing ts2 with
  | nil => exact absurd h (by simp [spawnAux])
  | cons t rest ih =>
    rw [spawnAux] at h
    split at h
    · rename_i hav
      refine ⟨0, t, rfl, hav, ?_, ?_⟩
      · intro j hj
        omega
      · cases h
        rfl
    · rename_i hnav
      obtain ⟨ts', hts', hcons⟩ := Option.map_eq_some'.mp h
      obtain ⟨i, u, hiu, huav, hfirst, heq⟩ := ih ts' hts'
      refine ⟨i + 1, u, hiu, huav, ?_, ?_⟩
      · intro j hj
        cases j with
        | zero =>
          intro hcontra
          unfold stateAt at hcontra
          simp at hcontra
          exact hnav hcontra
        | succ m =>
          exact hfirst m (by omega)
      · rw [← hcons, heq]
        rfl

theorem spawnAux_of_first (f g base : Nat) (ts : List Thread) (i : Nat) (t : Thread)
    (hi : ts.get? i = some t) (hav : t.state = State.Available)
    (hfirst : ∀ j, j < i → stateAt ts j ≠ some State.Available) :
    spawnAux f g base ts = some (modifyAt ts i (fun u => primeThread u f g base)) := by
  induction ts generalizing i with
  | nil => exact absurd hi (by simp)
  | cons x rest ih =>
    cases i with
    | zero =>
      have hx : x = t := by
        have : some x = some t := hi
        exact Option.some.inj this
      subst hx
      rw [spawnAux, if_pos hav]
      rfl
    | succ n =>
      have hxnav : ¬ x.state = State.Available := by
        intro hx
        exact hfirst 0 (by omega) (by unfold stateAt; simp [hx])
      rw [spawnAux, if_neg hxnav]
      have hrest := ih n hi (fun j hj => hfirst (j + 1) (by omega))
      rw [hrest]
      rfl

theorem primeThread_state (t : Thread) (f g base : Nat) :
    (primeThread t f g base).state = State.Ready := rfl

theorem spawnAux_count (f g base : Nat) (ts ts2 : List Thread)
    (h : spawnAux f g base ts = some ts2) :
    countAvail ts2 + 1 = countAvail ts := by
  induction ts generalizing ts2 with
  | nil => exact absurd h (by simp [spawnAux])
  | cons t rest ih =>
    rw [spawnAux] at h
    split at h
    · rename_i hav
      cases h
      simp [countAvail, hav, primeThread_state]
      omega
    · rename_i hnav
      obtain ⟨ts', hts', hcons⟩ := Option.map_eq_some'.mp h
      rw [← hcons]
      simp [countAvail, hnav]
      have := ih ts' hts'
      omega

theorem spawn_of_none (rt : Runtime) (f g base : Nat)
    (h : countAvail rt.threads = 0) :
    spawn rt f g base = Except.error "no available thread." := by
  unfold spawn
  rw [(spawnAux_none_iff f g base rt.threads).mpr h]

theorem spawn_of_pos (rt : Runtime) (f g base : Nat)
    (h : 0 < countAvail rt.threads) :
    ∃ ts2, spawn rt f g base = Except.ok { rt with threads := ts2 } ∧
      countAvail ts2 + 1 = countAvail rt.threads := by
  cases haux : spawnAux f g base rt.threads with
  | none =>
    have := (spawnAux_none_iff f g base rt.threads).mp haux
    omega
  | some ts2 =>
    refine ⟨ts2, ?_, spawnAux_count f g base _ _ haux⟩
    unfold spawn
    rw [haux]

theorem spawnN_exhausts (f g base : Nat) :
    ∀ n rt, countAvail rt.threads = n →
      (spawnN f g base n rt).isOk = true ∧
      spawnN f g base (n + 1) rt = Except.error "no available thread." := by
  intro n
  induction n with
  | zero =>
    intro rt h
    constructor
    · rfl
    · show (match spawn rt f g base with
        | Except.ok rt2 => spawnN f g base 0 rt2
        | Except.error e => Except.error e) = _
      rw [spawn_of_none rt f g base h]
  | succ m ih =>
    intro rt h
    obtain ⟨ts2, hok, hcount⟩ := spawn_of_pos rt f g base (by omega)
    have hc2 : countAvail ({ rt with threads := ts2 } : Runtime).threads = m := by
      show countAvail ts2 = m
      omega
    obtain ⟨ih1, ih2⟩ := ih { rt with threads := ts2 } hc2
    constructor
    · show (match spawn rt f g base with
        | Except.ok rt2 => spawnN f g base m rt2
        | Except.error e => Except.error e).isOk = true
      rw [hok]
      exact ih1
    · show (match spawn rt f g base with
        | Except.ok rt2 => spawnN f g base (m + 1) rt2
        | Except.error e => Except.error e) = _
      rw [hok]
      exact ih2

theorem inv_new : Inv Runtime.new := by
  refine ⟨by decide, by decide, ?_, by decide⟩
  intro j hj
  match j with
  | 0 => exact absurd rfl hj
  | 1 => decide
  | 2 => decide
  | 3 => decide
  | n + 4 =>
    have hnone : stateAt Runtime.new.threads (n + 4) = none := by
      rw [stateAt_none_iff]
      have : Runtime.new.threads.length = 4 := by decide
      omega
    rw [hnone]
    simp

theorem inv_step (rt rt2 : Runtime) (hinv : Inv rt) (hs : Step rt rt2) : Inv rt2 := by
  obtain ⟨hc, hrun, huniq, hbase⟩ := hinv
  cases hs with
  | yield saved =>
    cases hscan : scanReady rt with
    | none =>
      rw [t_yield_of_none rt saved hscan]
      exact ⟨hc, hrun, huniq, hbase⟩
    | some pos =>
      have hpr : stateAt rt.threads pos = some State.Ready := scanReady_ready rt pos hscan
      have hpl : pos < rt.threads.length := scanReady_lt rt pos hc hscan
      have hpc : pos ≠ rt.current := by
        intro he
        rw [he, hrun] at hpr
        simp at hpr
      have hcur := yield_current rt saved pos hscan
      have hlen := yield_length rt saved pos hscan
      refine ⟨?_, ?_, ?_, ?_⟩
      · rw [hcur, hlen]
        exact hpl
      · rw [hcur]
        exact yield_state_pos rt saved pos hscan hc
      · intro j hj
        rw [hcur] at hj
        by_cases hjc : j = rt.current
        · subst hjc
          rw [yield_state_cur_run rt saved pos hscan hc hpc hrun]
          simp
        · rw [yield_state_other rt saved pos j hscan hj hjc]
          exact huniq j hjc
      · by_cases h0p : 0 = pos
        · subst h0p
          rw [yield_state_pos rt saved 0 hscan hc]
          simp
        · by_cases h0c : 0 = rt.current
          · have hcr := yield_state_cur_run rt saved pos hscan hc hpc hrun
            rw [← h0c] at hcr
            rw [hcr]
            simp
          · rw [yield_state_other rt saved pos 0 hscan h0p h0c]
            exact hbase
  | ret saved =>
    by_cases h0 : rt.current = 0
    · rw [t_return_of_zero rt saved h0]
      exact ⟨hc, hrun, huniq, hbase⟩
    · rw [t_return_of_nonzero rt saved h0]
      set mid : Runtime :=
        { threads := setState rt.threads rt.current State.Available
          current := rt.current } with hmid
      have hmidlen : mid.threads.length = rt.threads.length := by
        show (setState rt.threads rt.current State.Available).length = _
        unfold setState
        exact modifyAt_length _ _ _
      have hmidc : mid.current < mid.threads.length := by
        rw [hmidlen]
        exact hc
      have hmidcur : stateAt mid.threads mid.current = some State.Available :=
        stateAt_setState_self rt.threads rt.current State.Available hc
      have h0len : 0 < rt.threads.length := by omega
      obtain ⟨t0, ht0⟩ := get?_of_lt rt.threads 0 h0len
      have h0state : stateAt rt.threads 0 = some t0.state := by
        unfold stateAt
        rw [ht0]
        rfl
      have h0ready : stateAt rt.threads 0 = some State.Ready := by
        have hnr : stateAt rt.threads 0 ≠ some State.Running := huniq 0 (by omega)
        cases hst : t0.state with
        | Available => rw [h0state, hst] at hbase; exact absurd rfl hbase
        | Running => rw [h0state, hst] at hnr; exact absurd rfl hnr
        | Ready => rw [h0state, hst]
      have h0readymid : stateAt mid.threads 0 = some State.Ready := by
        show stateAt (setState rt.threads rt.current State.Available) 0 = _
        rw [stateAt_setState_ne rt.threads rt.current 0 _ (fun he => h0 he.symm)]
        exact h0ready
      obtain ⟨pos, hscan⟩ :=
        scanReady_isSome_of_ready mid 0 hmidc (by rw [hmidlen]; exact h0len) h0readymid
      have hposready : stateAt mid.threads pos = some State.Ready :=
        scanReady_ready mid pos hscan
      have hposlt : pos < rt.threads.length := by
        have := scanReady_lt mid pos hmidc hscan
        rwa [hmidlen] at this
      have hposc : pos ≠ rt.current := by
        intro he
        rw [he] at hposready
        have hav : stateAt mid.threads rt.current = some State.Available := hmidcur
        rw [hav] at hposready
        simp at hposready
      have hcur := yield_current mid saved pos hscan
      have hlen := yield_length mid saved pos hscan
      refine ⟨?_, ?_, ?_, ?_⟩
      · rw [hcur, hlen, hmidlen]
        exact hposlt
      · rw [hcur]
        exact yield_state_pos mid saved pos hscan hmidc
      · intro j hj
        rw [hcur] at hj
        by_cases hjc : j = rt.current
        · subst hjc
          rw [yield_state_cur_avail mid saved pos hscan hposc hmidcur]
          simp
        · rw [yield_state_other mid saved pos j hscan hj hjc]
          show stateAt (setState rt.threads rt.current State.Available) j ≠ _
          rw [stateAt_setState_ne rt.threads rt.current j _ hjc]
          exact huniq j hjc
      · by_cases h0p : 0 = pos
        · subst h0p
          rw [yield_state_pos mid saved 0 hscan hmidc]
          simp
        · rw [yield_state_other mid saved pos 0 hscan h0p (fun he => h0 he.symm)]
          rw [h0readymid]
          simp
  | spawned f g base rt2 hok =>
    cases haux : spawnAux f g base rt.threads with
    | none =>
      unfold spawn at hok
      rw [haux] at hok
      exact absurd hok (by simp)
    | some ts2 =>
      unfold spawn at hok
      rw [haux] at hok
      have hrt2 : rt2 = { rt with threads := ts2 } := by
        cases hok
        rfl
      subst hrt2
      obtain ⟨i, t, hit, htav, _, hts2⟩ := spawnAux_some_spec f g base rt.threads ts2 haux
      have hstate_i : stateAt rt.threads i = some State.Available := by
        unfold stateAt
        rw [hit]
        simp [htav]
      have hic : i ≠ rt.current := by
        intro he
        rw [he, hrun] at hstate_i
        simp at hstate_i
      have hi0 : i ≠ 0 := by
        intro he
        rw [he] at hstate_i
        exact hbase hstate_i
      have hlen2 : ts2.length = rt.threads.length := by
        rw [hts2]
        exact modifyAt_length _ _ _
      have hstate2_i : stateAt ts2 i = some State.Ready := by
        rw [hts2]
        unfold stateAt
        rw [get?_modifyAt_self, hit]
        rfl
      have hstate2_ne : ∀ j, j ≠ i → stateAt ts2 j = stateAt rt.threads j := by
        intro j hj
        rw [hts2]
        exact stateAt_modifyAt_ne rt.threads i j _ hj
      refine ⟨?_, ?_, ?_, ?_⟩
      · show rt.current < ts2.length
        rw [hlen2]
        exact hc
      · show stateAt ts2 rt.current = some State.Running
        rw [hstate2_ne rt.current (fun he => hic he.symm)]
        exact hrun
      · intro j hj
        show stateAt ts2 j ≠ some State.Running
        by_cases hji : j = i
        · subst hji
          rw [hstate2_i]
          simp
        · rw [hstate2_ne j hji]
          exact huniq j hj
      · show stateAt ts2 0 ≠ some State.Available
        rw [hstate2_ne 0 (fun he => hi0 he.symm)]
        exact hbase

theorem inv_reachable (rt : Runtime) (h : Reachable rt) : Inv rt := by
  induction h with
  | base => exact inv_new
  | step rt1 rt2 _ hstep ih => exact inv_step rt1 rt2 ih hstep

theorem mem_readyIndices (rt : Runtime) (j : Nat) :
    j ∈ readyIndices rt ↔
      j < rt.threads.length ∧ stateAt rt.threads j = some State.Ready := by
  unfold readyIndices
  rw [List.mem_filter, List.mem_range]
  simp [decide_eq_true_eq]

theorem no_ready_of_nil (rt : Runtime) (h : readyIndices rt = []) :
    ∀ j, j < rt.threads.length → stateAt rt.threads j ≠ some State.Ready := by
  intro j h1 h2
  have hm := (mem_readyIndices rt j).mpr ⟨h1, h2⟩
  rw [h] at hm
  simp at hm

theorem t_yield_of_no_ready (rt : Runtime) (saved : ThreadContext)
    (hlt : rt.current < rt.threads.length)
    (hnr : ∀ j, j < rt.threads.length → stateAt rt.threads j ≠ some State.Ready) :
    t_yield rt saved = (rt, false) := by
  cases h : scanReady rt with
  | none => exact t_yield_of_none rt saved h
  | some q =>
    exact absurd (scanReady_ready rt q h) (hnr q (scanReady_lt rt q hlt h))

theorem firstAvail_spec (ts : List Thread) (i : Nat) (h : firstAvail ts = some i) :
    (∃ t, ts.get? i = some t ∧ t.state = State.Available) ∧
    ∀ j, j < i → stateAt ts j ≠ some State.Available := by
  induction ts generalizing i with
  | nil => exact absurd h (by simp [firstAvail])
  | cons x rest ih =>
    rw [firstAvail] at h
    split at h
    · rename_i hav
      cases h
      exact ⟨⟨x, rfl, hav⟩, fun j hj => by omega⟩
    · rename_i hnav
      obtain ⟨i2, hi2, hinc⟩ := Option.map_eq_some'.mp h
      rw [← hinc]
      obtain ⟨⟨t, ht, htav⟩, hfirst⟩ := ih i2 hi2
      refine ⟨⟨t, ht, htav⟩, ?_⟩
      intro j hj
      cases j with
      | zero =>
        intro hcontra
        unfold stateAt at hcontra
        simp at hcontra
        exact hnav hcontra
      | succ m => exact hfirst m (by omega)

theorem spawn_of_firstAvail (rt : Runtime) (f g base i : Nat)
    (hfa : firstAvail rt.threads = some i) :
    spawn rt f g base =
      Except.ok { rt with
        threads := modifyAt rt.threads i (fun u => primeThread u f g base) } := by
  obtain ⟨⟨t, ht, htav⟩, hfirst⟩ := firstAvail_spec rt.threads i hfa
  unfold spawn
  rw [spawnAux_of_first f g base rt.threads i t ht htav hfirst]

theorem spawn_effect (rt rt2 : Runtime) (f g base : Nat)
    (hok : spawn rt f g base = Except.ok rt2) :
    rt2.current = rt.current ∧ rt2.threads.length = rt.threads.length ∧
    ∃ i, stateAt rt.threads i = some State.Available ∧
      stateAt rt2.threads i = some State.Ready ∧
      ∀ j, j ≠ i → stateAt rt2.threads j = stateAt rt.threads j := by
  cases haux : spawnAux f g base rt.threads with
  | none =>
    unfold spawn at hok
    rw [haux] at hok
    exact absurd hok (by simp)
  | some ts2 =>
    unfold spawn at hok
    rw [haux] at hok
    have hrt2 : rt2 = { rt with threads := ts2 } := by
      cases hok
      rfl
    subst hrt2
    obtain ⟨i, t, hit, htav, _, hts2⟩ := spawnAux_some_spec f g base rt.threads ts2 haux
    refine ⟨rfl, by rw [hts2]; exact modifyAt_length _ _ _, i, ?_, ?_, ?_⟩
    · unfold stateAt
      rw [hit]
      simp [htav]
    · show stateAt ts2 i = some State.Ready
      rw [hts2]
      unfold stateAt
      rw [get?_modifyAt_self, hit]
      rfl
    · intro j hj
      show stateAt ts2 j = stateAt rt.threads j
      rw [hts2]
      exact stateAt_modifyAt_ne rt.threads i j _ hj

theorem t_return_effect (rt : Runtime) (saved : ThreadContext) (hinv : Inv rt)
    (h0 : rt.current ≠ 0) :
    ∃ pos, pos < rt.threads.length ∧ pos ≠ rt.current ∧
      stateAt rt.threads pos = some State.Ready ∧
      stateAt (t_return rt saved).threads pos = some State.Running ∧
      stateAt (t_return rt saved).threads rt.current = some State.Available ∧
      (t_return rt saved).current = pos ∧
      (t_return rt saved).threads.length = rt.threads.length ∧
      ∀ j, j ≠ pos → j ≠ rt.current →
        stateAt (t_return rt saved).threads j = stateAt rt.threads j := by
  obtain ⟨hc, hrun, huniq, hbase⟩ := hinv
  rw [t_return_of_nonzero rt saved h0]
  set mid : Runtime :=
    { threads := setState rt.threads rt.current State.Available
      current := rt.current } with hmid
  have hmidlen : mid.threads.length = rt.threads.length := by
    show (setState rt.threads rt.current State.Available).length = _
    unfold setState
    exact modifyAt_length _ _ _
  have hmidc : mid.current < mid.threads.length := by
    rw [hmidlen]
    exact hc
  have hmidcur : stateAt mid.threads mid.current = some State.Available :=
    stateAt_setState_self rt.threads rt.current State.Available hc
  have h0len : 0 < rt.threads.length := by omega
  obtain ⟨t0, ht0⟩ := get?_of_lt rt.threads 0 h0len
  have h0state : stateAt rt.threads 0 = some t0.state := by
    unfold stateAt
    rw [ht0]
    rfl
  have h0ready : stateAt rt.threads 0 = some State.Ready := by
    have hnr : stateAt rt.threads 0 ≠ some State.Running := huniq 0 (by omega)
    cases hst : t0.state with
    | Available => rw [h0state, hst] at hbase; exact absurd rfl hbase
    | Running => rw [h0state, hst] at hnr; exact absurd rfl hnr
    | Ready => rw [h0state, hst]
  have h0readymid : stateAt mid.threads 0 = some State.Ready := by
    show stateAt (setState rt.threads rt.current State.Available) 0 = _
    rw [stateAt_setState_ne rt.threads rt.current 0 _ (fun he => h0 he.symm)]
    exact h0ready
  obtain ⟨pos, hscan⟩ :=
    scanReady_isSome_of_ready mid 0 hmidc (by rw [hmidlen]; exact h0len) h0readymid
  have hposready : stateAt mid.threads pos = some State.Ready :=
    scanReady_ready mid pos hscan
  have hposlt : pos < rt.threads.length := by
    have := scanReady_lt mid pos hmidc hscan
    rwa [hmidlen] at this
  have hposc : pos ≠ rt.current := by
    intro he
    rw [he] at hposready
    have hav : stateAt mid.threads rt.current = some State.Available := hmidcur
    rw [hav] at hposready
    simp at hposready
  have hposrt : stateAt rt.threads pos = some State.Ready := by
    have : stateAt mid.threads pos
        = stateAt rt.threads pos := by
      show stateAt (setState rt.threads rt.current State.Available) pos = _
      exact stateAt_setState_ne rt.threads rt.current pos _ hposc
    rw [← this]
    exact hposready
  refine ⟨pos, hposlt, hposc, hposrt, ?_, ?_, ?_, ?_, ?_⟩
  · exact yield_state_pos mid saved pos hscan hmidc
  · exact yield_state_cur_avail mid saved pos hscan hposc hmidcur
  · exact yield_current mid saved pos hscan
  · rw [yield_length mid saved pos hscan]
    exact hmidlen
  · intro j hjp hjc
    rw [yield_state_other mid saved pos j hscan hjp hjc]
    show stateAt (setState rt.threads rt.current State.Available) j = _
    exact stateAt_setState_ne rt.threads rt.current j _ hjc

/-- C1: with the current unit Running and the current index in bounds, the
t_yield scan (1) only returns Ready in-bounds slots, (2) returns a slot of
minimal circular distance after the current index among all Ready slots
(strict round robin), (3) when slots A and B with A below B are the only
Ready slots and the current index is below both, the yield switches and the
new current index is A, and (4) when no slot is Ready the scan wraps back
to the current index, no switch occurs, the state is untouched and t_yield
returns false. -/
theorem C1_yield_round_robin (rt : Runtime) (saved : ThreadContext) (p A B j : Nat)
    (hlt : rt.current < rt.threads.length)
    (hrun : stateAt rt.threads rt.current = some State.Running) :
    (scanReady rt = some p →
      stateAt rt.threads p = some State.Ready ∧ p < rt.threads.length) ∧
    (scanReady rt = some p → j < rt.threads.length →
      stateAt rt.threads j = some State.Ready →
      cdist rt.threads.length rt.current p ≤ cdist rt.threads.length rt.current j) ∧
    (readyIndices rt = [A, B] → A < B → rt.current < A →
      (t_yield rt saved).2 = true ∧ (t_yield rt saved).1.current = A) ∧
    (readyIndices rt = [] → t_yield rt saved = (rt, false)) := by
  refine ⟨?_, ?_, ?_, ?_⟩
  · intro h
    exact ⟨scanReady_ready rt p h, scanReady_lt rt p hlt h⟩
  · intro h hj hjr
    exact scanReady_min rt p hlt h j hj hjr
  · intro hri hAB hcA
    have hA := (mem_readyIndices rt A).mp (by rw [hri]; simp)
    have hB := (mem_readyIndices rt B).mp (by rw [hri]; simp)
    have honly : ∀ q, q < rt.threads.length →
        stateAt rt.threads q = some State.Ready → q = A ∨ q = B := by
      intro q h1 h2
      have hm := (mem_readyIndices rt q).mpr ⟨h1, h2⟩
      rw [hri] at hm
      simpa using hm
    obtain ⟨q, hq⟩ := scanReady_isSome_of_ready rt A hlt hA.1 hA.2
    have hqr := scanReady_ready rt q hq
    have hql := scanReady_lt rt q hlt hq
    rcases honly q hql hqr with rfl | rfl
    · exact ⟨yield_true rt saved q hq, yield_current rt saved q hq⟩
    · exfalso
      have hmin := scanReady_min rt q hlt hq A hA.1 hA.2
      unfold cdist at hmin
      split_ifs at hmin <;> omega
  · intro hri
    exact t_yield_of_no_ready rt saved hlt (no_ready_of_nil rt hri)

/-- Witness for C1: in rtC1 the current slot 0 is Running, slots 2 and 3
are the only Ready slots, and the yield switches to slot 2. -/
theorem C1_yield_round_robin_witness :
    rtC1.current < rtC1.threads.length ∧
    stateAt rtC1.threads rtC1.current = some State.Running ∧
    (readyIndices rtC1 = [2, 3] → 2 < 3 → rtC1.current < 2 →
      (t_yield rtC1 ThreadContext.zero).2 = true ∧
      (t_yield rtC1 ThreadContext.zero).1.current = 2) :=
  ⟨by decide, by decide,
    (C1_yield_round_robin rtC1 ThreadContext.zero 2 2 3 3 (by decide) (by decide)).2.2.1⟩

/-- C2 counterexample: with zero Available slots the spawn call reaches the
expect call and the program panics with the message below. The panic is
modelled by Except.error; the Rust spawn signature returns unit, so this
outcome aborts the program instead of reaching the caller as a recoverable
error value, contradicting the claim that exhaustion does not crash. -/
theorem C2_counterexample :
    countAvail rtC2full.threads = 0 ∧
    spawn rtC2full 0 0 0 = Except.error "no available thread." := by
  constructor
  · decide
  · rfl

/-- C2 (amended): with k Available slots, k spawn calls succeed and the
(k+1)th call panics with the message no available thread. -/
theorem C2_spawn_exhaustion (f g base n : Nat) (rt : Runtime)
    (h : countAvail rt.threads = n) :
    (spawnN f g base n rt).isOk = true ∧
    spawnN f g base (n + 1) rt = Except.error "no available thread." :=
  spawnN_exhausts f g base n rt h

/-- Witness for C2 at a pool with two Available slots. -/
theorem C2_spawn_exhaustion_witness :
    countAvail rtC2.threads = 2 ∧
    ((spawnN 5 6 7 2 rtC2).isOk = true ∧
     spawnN 5 6 7 3 rtC2 = Except.error "no available thread.") :=
  ⟨by decide, C2_spawn_exhaustion 5 6 7 2 rtC2 (by decide)⟩

/-- C3: in every scheduler state reachable from construction by spawn,
t_yield and t_return steps, the unit at the current index is Running and no
other unit is Running. -/
theorem C3_unique_running (rt : Runtime) (j : Nat) (hr : Reachable rt) :
    stateAt rt.threads rt.current = some State.Running ∧
    (j ≠ rt.current → stateAt rt.threads j ≠ some State.Running) := by
  obtain ⟨_, h2, h3, _⟩ := inv_reachable rt hr
  exact ⟨h2, fun hj => h3 j hj⟩

/-- Witness for C3 at the freshly constructed scheduler. -/
theorem C3_unique_running_witness :
    Reachable Runtime.new ∧
    (stateAt Runtime.new.threads Runtime.new.current = some State.Running ∧
     (1 ≠ Runtime.new.current → stateAt Runtime.new.threads 1 ≠ some State.Running)) :=
  ⟨Reachable.base, C3_unique_running Runtime.new 1 Reachable.base⟩

/-- C4 counterexample: in rtC4cex the only Ready slot is the current one,
so no unit other than the current one is Ready, yet t_yield finds the
current slot itself in the scan, switches to it, returns true and mutates
its state to Running, contradicting the claim as stated. -/
theorem C4_counterexample :
    readyIndices rtC4cex = [0] ∧ rtC4cex.current = 0 ∧
    (t_yield rtC4cex ThreadContext.zero).2 = true ∧
    (t_yield rtC4cex ThreadContext.zero).1 ≠ rtC4cex :=
  ⟨by decide, rfl, by decide, by decide⟩

/-- C4 (amended): when no slot at all is Ready (equivalently, no slot other
than the current one is Ready and the current slot itself is not Ready),
t_yield returns false and leaves the whole runtime, thread states, thread
contexts and current index, unchanged. -/
theorem C4_no_ready_frame (rt : Runtime) (saved : ThreadContext)
    (hlt : rt.current < rt.threads.length) (hnr : readyIndices rt = []) :
    t_yield rt saved = (rt, false) :=
  t_yield_of_no_ready rt saved hlt (no_ready_of_nil rt hnr)

/-- Witness for C4 at a pool with no Ready slot. -/
theorem C4_no_ready_frame_witness :
    rtC4w.current < rtC4w.threads.length ∧ readyIndices rtC4w = [] ∧
    t_yield rtC4w ThreadContext.zero = (rtC4w, false) :=
  ⟨by decide, by decide,
    C4_no_ready_frame rtC4w ThreadContext.zero (by decide) (by decide)⟩

/-- C5: a successful spawn picks the first (lowest index) Available slot,
writes the guard address into the highest 8 byte slot of its stack (byte
offset size - 8), writes the entry address 8 bytes below it (offset
size - 16), sets the saved stack pointer to the address of the entry slot
(base plus size - 16), and moves the slot from Available to Ready. -/
theorem C5_spawn_priming (rt : Runtime) (f g base i : Nat) (t : Thread)
    (hfa : firstAvail rt.threads = some i) (ht : rt.threads.get? i = some t)
    (hsz : 16 ≤ t.stack.length) :
    spawn rt f g base =
      Except.ok { rt with
        threads := modifyAt rt.threads i (fun u => primeThread u f g base) } ∧
    readLE 8 (t.stack.length - 8) (primeThread t f g base).stack = g % 2 ^ 64 ∧
    readLE 8 (t.stack.length - 16) (primeThread t f g base).stack = f % 2 ^ 64 ∧
    (primeThread t f g base).ctx.rsp = base + (t.stack.length - 16) ∧
    (primeThread t f g base).state = State.Ready ∧
    stateAt (modifyAt rt.threads i (fun u => primeThread u f g base)) i
      = some State.Ready := by
  have hspawn := spawn_of_firstAvail rt f g base i hfa
  have hstack : (primeThread t f g base).stack
      = writeLE 8 (t.stack.length - 16) f
          (writeLE 8 (t.stack.length - 8) g t.stack) := rfl
  have hpow : (256 : Nat) ^ 8 = 2 ^ 64 := by norm_num
  refine ⟨hspawn, ?_, ?_, rfl, rfl, ?_⟩
  · rw [hstack]
    have hcongr : readLE 8 (t.stack.length - 8)
        (writeLE 8 (t.stack.length - 16) f
          (writeLE 8 (t.stack.length - 8) g t.stack))
        = readLE 8 (t.stack.length - 8)
            (writeLE 8 (t.stack.length - 8) g t.stack) := by
      refine readLE_congr 8 _ _ _ (fun k hk => ?_)
      exact writeLE_get?_ge 8 (t.stack.length - 16) f
        (writeLE 8 (t.stack.length - 8) g t.stack)
        (t.stack.length - 8 + k) (by omega)
    rw [hcongr, readLE_writeLE 8 _ g t.stack (by omega), hpow]
  · rw [hstack,
      readLE_writeLE 8 _ f _ (by rw [writeLE_length]; omega), hpow]
  · unfold stateAt
    rw [get?_modifyAt_self, ht]
    rfl

/-- Witness for C5 spawning into rtC5, whose first Available slot is 1. -/
theorem C5_spawn_priming_witness :
    firstAvail rtC5.threads = some 1 ∧ rtC5.threads.get? 1 = some tC5 ∧
    16 ≤ tC5.stack.length ∧
    (spawn rtC5 11 22 1000 =
       Except.ok { rtC5 with
         threads := modifyAt rtC5.threads 1 (fun u => primeThread u 11 22 1000) } ∧
     readLE 8 (tC5.stack.length - 8) (primeThread tC5 11 22 1000).stack
       = 22 % 2 ^ 64 ∧
     readLE 8 (tC5.stack.length - 16) (primeThread tC5 11 22 1000).stack
       = 11 % 2 ^ 64 ∧
     (primeThread tC5 11 22 1000).ctx.rsp = 1000 + (tC5.stack.length - 16) ∧
     (primeThread tC5 11 22 1000).state = State.Ready ∧
     stateAt (modifyAt rtC5.threads 1 (fun u => primeThread u 11 22 1000)) 1
       = some State.Ready) :=
  ⟨by decide, by decide, by decide,
    C5_spawn_priming rtC5 11 22 1000 1 tC5 (by decide) (by decide) (by decide)⟩

/-- C6 counterexample: slot 0 of a freshly constructed scheduler does not
hold an empty stack: its stack is a full DEFAULT_STACK_SIZE byte buffer,
the same as every other slot, contradicting the claim that slot 0 starts
Running with an empty stack. -/
theorem C6_counterexample :
    (Runtime.new.threads.get? 0).map (fun t => t.stack.length)
      = some DEFAULT_STACK_SIZE ∧
    DEFAULT_STACK_SIZE ≠ 0 := by
  constructor
  · have hg : Runtime.new.threads.get? 0
        = some { id := 0, stack := List.replicate DEFAULT_STACK_SIZE 0
                 ctx := ThreadContext.zero, state := State.Running } := rfl
    rw [hg]
    simp [List.length_replicate]
  · decide

/-- C6 (amended): construction yields current index 0, a pool of
MAX_THREADS slots, slot 0 Running and every other slot Available, with
every slot, slot 0 included, holding a pre-allocated DEFAULT_STACK_SIZE
byte stack buffer (slot 0 has a full sized stack, not an empty one). -/
theorem C6_new_pool (j : Nat) (h1 : 1 ≤ j) (h2 : j < MAX_THREADS) :
    Runtime.new.current = 0 ∧
    Runtime.new.threads.length = MAX_THREADS ∧
    stateAt Runtime.new.threads 0 = some State.Running ∧
    (Runtime.new.threads.get? 0).map (fun t => t.stack.length)
      = some DEFAULT_STACK_SIZE ∧
    stateAt Runtime.new.threads j = some State.Available ∧
    (Runtime.new.threads.get? j).map (fun t => t.stack.length)
      = some DEFAULT_STACK_SIZE ∧
    (j ≠ 0 → stateAt Runtime.new.threads j ≠ some State.Running) := by
  have hj : j = 1 ∨ j = 2 ∨ j = 3 := by
    unfold MAX_THREADS at h2
    omega
  refine ⟨rfl, by decide, by decide, ?_, ?_, ?_, ?_⟩
  · have hg : Runtime.new.threads.get? 0
        = some { id := 0, stack := List.replicate DEFAULT_STACK_SIZE 0
                 ctx := ThreadContext.zero, state := State.Running } := rfl
    rw [hg]
    simp [List.length_replicate]
  · rcases hj with rfl | rfl | rfl <;> decide
  · rcases hj with rfl | rfl | rfl
    · have hg : Runtime.new.threads.get? 1 = some (Thread.new 1) := rfl
      rw [hg]
      simp [Thread.new, List.length_replicate]
    · have hg : Runtime.new.threads.get? 2 = some (Thread.new 2) := rfl
      rw [hg]
      simp [Thread.new, List.length_replicate]
    · have hg : Runtime.new.threads.get? 3 = some (Thread.new 3) := rfl
      rw [hg]
      simp [Thread.new, List.length_replicate]
  · intro _
    rcases hj with rfl | rfl | rfl <;> decide

/-- Witness for C6 at slot 2. -/
theorem C6_new_pool_witness :
    1 ≤ 2 ∧ 2 < MAX_THREADS ∧
    (Runtime.new.current = 0 ∧
     Runtime.new.threads.length = MAX_THREADS ∧
     stateAt Runtime.new.threads 0 = some State.Running ∧
     (Runtime.new.threads.get? 0).map (fun t => t.stack.length)
       = some DEFAULT_STACK_SIZE ∧
     stateAt Runtime.new.threads 2 = some State.Available ∧
     (Runtime.new.threads.get? 2).map (fun t => t.stack.length)
       = some DEFAULT_STACK_SIZE ∧
     (2 ≠ 0 → stateAt Runtime.new.threads 2 ≠ some State.Running)) :=
  ⟨by decide, by decide, C6_new_pool 2 (by decide) (by decide)⟩

/-- C7: t_return with a nonzero current index marks the current unit
Available and immediately performs an internal yield on the resulting
state, while with current index 0 (the bootstrap unit) it does nothing, so
slot 0 is never retired this way. -/
theorem C7_t_return_retires (rt : Runtime) (saved : ThreadContext)
    (hlt : rt.current < rt.threads.length) :
    (rt.current ≠ 0 →
      t_return rt saved =
        (t_yield { threads := setState rt.threads rt.current State.Available
                   current := rt.current } saved).1 ∧
      stateAt (setState rt.threads rt.current State.Available) rt.current
        = some State.Available) ∧
    (rt.current = 0 → t_return rt saved = rt) := by
  constructor
  · intro h
    exact ⟨t_return_of_nonzero rt saved h,
           stateAt_setState_self rt.threads rt.current State.Available hlt⟩
  · intro h
    exact t_return_of_zero rt saved h

/-- Witness for C7 at a pool whose current index is 1. -/
theorem C7_t_return_retires_witness :
    rtC7.current < rtC7.threads.length ∧
    ((rtC7.current ≠ 0 →
      t_return rtC7 ThreadContext.zero =
        (t_yield { threads := setState rtC7.threads rtC7.current State.Available
                   current := rtC7.current } ThreadContext.zero).1 ∧
      stateAt (setState rtC7.threads rtC7.current State.Available) rtC7.current
        = some State.Available) ∧
     (rtC7.current = 0 → t_return rtC7 ThreadContext.zero = rtC7)) :=
  ⟨by decide, C7_t_return_retires rtC7 ThreadContext.zero (by decide)⟩

/-- C8 counterexample: installing a second scheduler does not fail fast,
it silently succeeds and replaces the first installed one; Runtime::init
performs no check at all. -/
theorem C8_counterexample :
    installRuntime (installRuntime none rtC8a) rtC8b = some rtC8b ∧
    installRuntime (installRuntime none rtC8a) rtC8b ≠ installRuntime none rtC8a :=
  ⟨rfl, by decide⟩

/-- C8 (amended): init stores the scheduler pointer unconditionally, so a
second installation silently replaces the first one rather than failing
fast, and a yield before installation dereferences the null scheduler
pointer, which is undefined behavior (modelled as none) rather than a
checked, loud failure. -/
theorem C8_install_unchecked (old : Option Runtime) (rt : Runtime)
    (saved : ThreadContext) :
    installRuntime old rt = some rt ∧ yieldThread none saved = none :=
  ⟨rfl, rfl⟩

/-- C9: along any scheduler step from a reachable state, (1) an Available
unit never becomes Running directly, (2) a unit found Running after the
step was Running or Ready immediately before (a unit newly marked Running
by the yield scan was Ready), (3) a Ready unit is never silently dropped,
it stays Ready or becomes Running, and (4) a unit newly Available got
there only through t_return retiring the current, nonzero, previously
Running unit. -/
theorem C9_lifecycle_transitions (rt rt2 : Runtime) (j : Nat)
    (hr : Reachable rt) (hs : Step rt rt2) :
    (stateAt rt.threads j = some State.Available →
      stateAt rt2.threads j ≠ some State.Running) ∧
    (stateAt rt2.threads j = some State.Running →
      stateAt rt.threads j = some State.Running ∨
      stateAt rt.threads j = some State.Ready) ∧
    (stateAt rt.threads j = some State.Ready →
      stateAt rt2.threads j = some State.Ready ∨
      stateAt rt2.threads j = some State.Running) ∧
    (stateAt rt2.threads j = some State.Available →
      stateAt rt.threads j = some State.Available ∨
      (j = rt.current ∧ j ≠ 0 ∧ stateAt rt.threads j = some State.Running)) := by
  obtain ⟨hc, hrun, huniq, hbase⟩ := inv_reachable rt hr
  cases hs with
  | yield saved =>
    cases hscan : scanReady rt with
    | none =>
      rw [t_yield_of_none rt saved hscan]
      refine ⟨?_, ?_, ?_, ?_⟩
      · intro h
        rw [h]
        simp
      · intro h
        exact Or.inl h
      · intro h
        exact Or.inl h
      · intro h
        exact Or.inl h
    | some pos =>
      have hpr := scanReady_ready rt pos hscan
      have hpc : pos ≠ rt.current := by
        intro he
        rw [he, hrun] at hpr
        simp at hpr
      have h2pos : stateAt (t_yield rt saved).1.threads pos = some State.Running :=
        yield_state_pos rt saved pos hscan hc
      have h2cur : stateAt (t_yield rt saved).1.threads rt.current
          = some State.Ready :=
        yield_state_cur_run rt saved pos hscan hc hpc hrun
      by_cases hjp : j = pos
      · subst hjp
        refine ⟨?_, ?_, ?_, ?_⟩
        · intro h
          rw [h] at hpr
          simp at hpr
        · intro _
          exact Or.inr hpr
        · intro _
          exact Or.inr h2pos
        · intro h
          rw [h2pos] at h
          simp at h
      · by_cases hjc : j = rt.current
        · subst hjc
          refine ⟨?_, ?_, ?_, ?_⟩
          · intro h
            rw [h] at hrun
            simp at hrun
          · intro h
            rw [h2cur] at h
            simp at h
          · intro h
            rw [h] at hrun
            simp at hrun
          · intro h
            rw [h2cur] at h
            simp at h
        · have hoth := yield_state_other rt saved pos j hscan hjp hjc
          refine ⟨?_, ?_, ?_, ?_⟩
          · intro h
            rw [hoth, h]
            simp
          · intro h
            rw [hoth] at h
            exact Or.inl h
          · intro h
            rw [hoth]
            exact Or.inl h
          · intro h
            rw [hoth] at h
            exact Or.inl h
  | ret saved =>
    by_cases h0 : rt.current = 0
    · rw [t_return_of_zero rt saved h0]
      refine ⟨?_, ?_, ?_, ?_⟩
      · intro h
        rw [h]
        simp
      · intro h
        exact Or.inl h
      · intro h
        exact Or.inl h
      · intro h
        exact Or.inl h
    · obtain ⟨pos, hpl, hpc, hposrt, h2pos, h2cur, hcur2, hlen2, hoth⟩ :=
        t_return_effect rt saved ⟨hc, hrun, huniq, hbase⟩ h0
      by_cases hjp : j = pos
      · subst hjp
        refine ⟨?_, ?_, ?_, ?_⟩
        · intro h
          rw [h] at hposrt
          simp at hposrt
        · intro _
          exact Or.inr hposrt
        · intro _
          exact Or.inr h2pos
        · intro h
          rw [h2pos] at h
          simp at h
      · by_cases hjc : j = rt.current
        · subst hjc
          refine ⟨?_, ?_, ?_, ?_⟩
          · intro h
            rw [h] at hrun
            simp at hrun
          · intro h
            rw [h2cur] at h
            simp at h
          · intro h
            rw [h] at hrun
            simp at hrun
          · intro _
            exact Or.inr ⟨rfl, h0, hrun⟩
        · have ho := hoth j hjp hjc
          refine ⟨?_, ?_, ?_, ?_⟩
          · intro h
            rw [ho, h]
            simp
          · intro h
            rw [ho] at h
            exact Or.inl h
          · intro h
            rw [ho]
            exact Or.inl h
          · intro h
            rw [ho] at h
            exact Or.inl h
  | spawned f g base rt2 hok =>
    obtain ⟨hcur2, hlen2, i, hav_i, hrdy_i, hoth⟩ := spawn_effect rt rt2 f g base hok
    by_cases hji : j = i
    · subst hji
      refine ⟨?_, ?_, ?_, ?_⟩
      · intro _
        rw [hrdy_i]
        simp
      · intro h
        rw [hrdy_i] at h
        simp at h
      · intro h
        rw [h] at hav_i
        simp at hav_i
      · intro h
        rw [hrdy_i] at h
        simp at h
    · have ho := hoth j hji
      refine ⟨?_, ?_, ?_, ?_⟩
      · intro h
        rw [ho, h]
        simp
      · intro h
        rw [ho] at h
        exact Or.inl h
      · intro h
        rw [ho]
        exact Or.inl h
      · intro h
        rw [ho] at h
        exact Or.inl h

/-- Witness for C9 on the yield step out of the fresh scheduler at slot 1. -/
theorem C9_lifecycle_transitions_witness :
    Reachable Runtime.new ∧
    Step Runtime.new (t_yield Runtime.new ThreadContext.zero).1 ∧
    ((stateAt Runtime.new.threads 1 = some State.Available →
      stateAt (t_yield Runtime.new ThreadContext.zero).1.threads 1
        ≠ some State.Running) ∧
     (stateAt (t_yield Runtime.new ThreadContext.zero).1.threads 1
        = some State.Running →
      stateAt Runtime.new.threads 1 = some State.Running ∨
      stateAt Runtime.new.threads 1 = some State.Ready) ∧
     (stateAt Runtime.new.threads 1 = some State.Ready →
      stateAt (t_yield Runtime.new ThreadContext.zero).1.threads 1
        = some State.Ready ∨
      stateAt (t_yield Runtime.new ThreadContext.zero).1.threads 1
        = some State.Running) ∧
     (stateAt (t_yield Runtime.new ThreadContext.zero).1.threads 1
        = some State.Available →
      stateAt Runtime.new.threads 1 = some State.Available ∨
      (1 = Runtime.new.current ∧ 1 ≠ 0 ∧
        stateAt Runtime.new.threads 1 = some State.Running))) :=
  ⟨Reachable.base, Step.yield Runtime.new ThreadContext.zero,
    C9_lifecycle_transitions Runtime.new (t_yield Runtime.new ThreadContext.zero).1 1
      Reachable.base (Step.yield Runtime.new ThreadContext.zero)⟩

/-- C10: a successful spawn mutates only the chosen (first Available)
slot: every other slot is kept byte for byte, the current index is
unchanged, and within the chosen slot only the top 16 stack bytes, the
rsp field and the lifecycle state change, while id, the remaining context
fields and every stack byte below offset size - 16 keep their previous
values. -/
theorem C10_spawn_frame (rt : Runtime) (f g base i j off : Nat) (t : Thread)
    (hfa : firstAvail rt.threads = some i) (ht : rt.threads.get? i = some t) :
    spawn rt f g base =
      Except.ok { rt with
        threads := modifyAt rt.threads i (fun u => primeThread u f g base) } ∧
    (modifyAt rt.threads i (fun u => primeThread u f g base)).get? i
      = some (primeThread t f g base) ∧
    (j ≠ i → (modifyAt rt.threads i (fun u => primeThread u f g base)).get? j
      = rt.threads.get? j) ∧
    (primeThread t f g base).id = t.id ∧
    (primeThread t f g base).ctx.r15 = t.ctx.r15 ∧
    (primeThread t f g base).ctx.r14 = t.ctx.r14 ∧
    (primeThread t f g base).ctx.r13 = t.ctx.r13 ∧
    (primeThread t f g base).ctx.r12 = t.ctx.r12 ∧
    (primeThread t f g base).ctx.rbx = t.ctx.rbx ∧
    (primeThread t f g base).ctx.rbp = t.ctx.rbp ∧
    (primeThread t f g base).ctx.win_nt_tib = t.ctx.win_nt_tib ∧
    (primeThread t f g base).stack.length = t.stack.length ∧
    (off < t.stack.length - 16 →
      (primeThread t f g base).stack.get? off = t.stack.get? off) ∧
    (primeThread t f g base).state = State.Ready := by
  refine ⟨spawn_of_firstAvail rt f g base i hfa, ?_, ?_, rfl, rfl, rfl, rfl, rfl,
    rfl, rfl, rfl, ?_, ?_, rfl⟩
  · rw [get?_modifyAt_self, ht]
    rfl
  · intro hj
    exact get?_modifyAt_ne rt.threads i j _ hj
  · show (writeLE 8 (t.stack.length - 16) f
      (writeLE 8 (t.stack.length - 8) g t.stack)).length = t.stack.length
    rw [writeLE_length, writeLE_length]
  · intro hoff
    show (writeLE 8 (t.stack.length - 16) f
      (writeLE 8 (t.stack.length - 8) g t.stack)).get? off = t.stack.get? off
    rw [writeLE_get?_lt 8 _ _ _ _ (by omega), writeLE_get?_lt 8 _ _ _ _ (by omega)]

/-- Witness for C10 spawning into rtC10, whose first Available slot is 2,
checked at the untouched slot 1 and stack offset 0. -/
theorem C10_spawn_frame_witness :
    firstAvail rtC10.threads = some 2 ∧ rtC10.threads.get? 2 = some tC10 ∧
    (spawn rtC10 3 4 500 =
       Except.ok { rtC10 with
         threads := modifyAt rtC10.threads 2 (fun u => primeThread u 3 4 500) } ∧
     (modifyAt rtC10.threads 2 (fun u => primeThread u 3 4 500)).get? 2
       = some (primeThread tC10 3 4 500) ∧
     (1 ≠ 2 → (modifyAt rtC10.threads 2 (fun u => primeThread u 3 4 500)).get? 1
       = rtC10.threads.get? 1) ∧
     (primeThread tC10 3 4 500).id = tC10.id ∧
     (primeThread tC10 3 4 500).ctx.r15 = tC10.ctx.r15 ∧
     (primeThread tC10 3 4 500).ctx.r14 = tC10.ctx.r14 ∧
     (primeThread tC10 3 4 500).ctx.r13 = tC10.ctx.r13 ∧
     (primeThread tC10 3 4 500).ctx.r12 = tC10.ctx.r12 ∧
     (primeThread tC10 3 4 500).ctx.rbx = tC10.ctx.rbx ∧
     (primeThread tC10 3 4 500).ctx.rbp = tC10.ctx.rbp ∧
     (primeThread tC10 3 4 500).ctx.win_nt_tib = tC10.ctx.win_nt_tib ∧
     (primeThread tC10 3 4 500).stack.length = tC10.stack.length ∧
     (0 < tC10.stack.length - 16 →
       (primeThread tC10 3 4 500).stack.get? 0 = tC10.stack.get? 0) ∧
     (primeThread tC10 3 4 500).state = State.Ready) :=
  ⟨by decide, by decide,
    C10_spawn_frame rtC10 3 4 500 2 1 0 tC10 (by decide) (by decide)⟩

end Green
